import Mathlib

/-!
Verification development for the crushingviz ACLED weekly-aggregate ingestion
pipeline (packages/data/acled/fetch-weekly-aggregates.ts together with the
relational schema in packages/api/migrate/migrations/001_init_db_up.sql and
the ACLED vocabulary in packages/api/types/acled/acled.go).

The TypeScript pipeline is shallowly embedded here: JavaScript primitives that
the script relies on (string truthiness, parseInt, parseFloat, Date parsing)
are modelled as pure Lean functions, the Postgres tables as lists inside a
`Store` structure, and the per-region transaction as an all-or-nothing state
transformer.  All definitions are executable.
-/

namespace Crushingviz

/-! ## JavaScript primitive models -/

/-- A raw spreadsheet row as produced by XLSX.utils.sheet_to_json: an
association list from column names to cell strings.  A missing key models a
JavaScript `undefined` field. -/
abbrev RawRow := List (String × String)

/-- Model of JavaScript property access `row[key]`: `none` when the key is
absent (undefined). -/
def rowGet (row : RawRow) (key : String) : Option String :=
  (List.find? (fun kv => kv.1 = key) row).map (fun kv => kv.2)

/-- JavaScript truthiness of a string-or-undefined value: `undefined` and the
empty string are falsy, every other string is truthy. -/
def jsTruthyStr : Option String → Bool
  | none => false
  | some s => s ≠ ""

/-- JavaScript truthiness of a number-or-null value (`null`, `undefined` and
`0` are falsy). -/
def jsTruthyNum : Option Nat → Bool
  | none => false
  | some n => n ≠ 0

/-- Model of a JavaScript `a || b || ... || dflt` chain over string values:
returns the first truthy value, or the final default. -/
def jsOrStr (vals : List (Option String)) (dflt : String) : String :=
  match vals with
  | [] => dflt
  | v :: rest => match v with
    | some s => if s = "" then jsOrStr rest dflt else s
    | none => jsOrStr rest dflt

/-- Model of a JavaScript `a || b || ...` chain with no default, followed by a
falsiness test (`if (!x) ...`): `none` when every value is falsy, otherwise
the first truthy value. -/
def jsFirstTruthy (vals : List (Option String)) : Option String :=
  match vals with
  | [] => none
  | v :: rest => match v with
    | some s => if s = "" then jsFirstTruthy rest else some s
    | none => jsFirstTruthy rest

/-- Trim whitespace from both ends of a string (JavaScript `s.trim()`). -/
def trimStr (s : String) : String :=
  ⟨((s.data.dropWhile Char.isWhitespace).reverse.dropWhile
      Char.isWhitespace).reverse⟩

/-- Split a character list on a separator character (the single-character
uses of `String.splitOn` in the script). -/
def splitOnChar (sep : Char) : List Char → List (List Char)
  | [] => [[]]
  | c :: rest =>
    let r := splitOnChar sep rest
    if c = sep then [] :: r
    else
      match r with
      | [] => [[c]]
      | w :: ws => (c :: w) :: ws

/-- Split a string on a separator character, as strings. -/
def splitStr (sep : Char) (s : String) : List String :=
  (splitOnChar sep s.data).map (fun w => ⟨w⟩)

/-- Split a character list wherever a predicate holds. -/
def splitOnPred (p : Char → Bool) : List Char → List (List Char)
  | [] => [[]]
  | c :: rest =>
    let r := splitOnPred p rest
    if p c then [] :: r
    else
      match r with
      | [] => [[c]]
      | w :: ws => (c :: w) :: ws

/-- The maximal whitespace-separated words of a string (the
`split` + filter-empty idiom). -/
def wordsOf (s : String) : List String :=
  ((splitOnPred Char.isWhitespace s.data).map (fun w => (⟨w⟩ : String))).filter
    (fun w => w ≠ "")

/-- Lower-case a string (ASCII, as the month names need). -/
def lowerStr (s : String) : String := ⟨s.data.map Char.toLower⟩

/-- Decimal digit characters of a natural number, via fuel. -/
def natDigitsAux : Nat → Nat → List Char
  | 0, _ => []
  | _ + 1, 0 => []
  | fuel + 1, n =>
    natDigitsAux fuel (n / 10) ++ [Char.ofNat (48 + n % 10)]

/-- Render a natural number in decimal (JavaScript template-string
interpolation of a number). -/
def natToStr (n : Nat) : String :=
  if n = 0 then "0" else ⟨natDigitsAux (n + 1) n⟩

/-- Numeric value of a decimal digit character. -/
def digitVal (c : Char) : Nat := c.toNat - 48

/-- Natural number denoted by a list of decimal digit characters. -/
def natOfDigits (l : List Char) : Nat :=
  l.foldl (fun n c => n * 10 + digitVal c) 0

/-- Characters treated as whitespace by the JavaScript number parsers. -/
def isJsSpace (c : Char) : Bool :=
  c = ' ' || c = '\t' || c = '\n' || c = '\r'

/-- Hexadecimal digit test. -/
def isHexDigit (c : Char) : Bool :=
  c.isDigit || ('a' ≤ c && c ≤ 'f') || ('A' ≤ c && c ≤ 'F')

/-- Numeric value of a hexadecimal digit character. -/
def hexVal (c : Char) : Nat :=
  if c.isDigit then c.toNat - 48
  else if 'a' ≤ c && c ≤ 'f' then c.toNat - 87
  else c.toNat - 55

/-- Natural number denoted by a list of hexadecimal digit characters. -/
def natOfHexDigits (l : List Char) : Nat :=
  l.foldl (fun n c => n * 16 + hexVal c) 0

/-- Model of JavaScript `parseInt(s)` (default radix): skip leading
whitespace, read an optional sign, then either a `0x`-prefixed hexadecimal
numeral or the maximal run of decimal digits.  `none` models `NaN`. -/
def jsParseInt (s : String) : Option Int :=
  let cs := (s.toList).dropWhile isJsSpace
  let (sign, cs) : Int × List Char :=
    match cs with
    | '-' :: rest => (-1, rest)
    | '+' :: rest => (1, rest)
    | _ => (1, cs)
  match cs with
  | '0' :: 'x' :: rest =>
      let hs := rest.takeWhile isHexDigit
      if hs = [] then none else some (sign * (natOfHexDigits hs : Int))
  | '0' :: 'X' :: rest =>
      let hs := rest.takeWhile isHexDigit
      if hs = [] then none else some (sign * (natOfHexDigits hs : Int))
  | _ =>
      let ds := cs.takeWhile Char.isDigit
      if ds = [] then none else some (sign * (natOfDigits ds : Int))

/-- A finite decimal: a signed mantissa together with its number of decimal
places, denoting `mantissa / 10 ^ places`.  This represents the JavaScript
numbers `parseFloat` produces for the ACLED centroid cells exactly, and two
identical cell strings always yield identical encodings. -/
abbrev Decimal := Int × Nat

/-- Model of JavaScript `parseFloat(s)`: skip leading whitespace, read an
optional sign and a maximal decimal numeral with optional fractional part.
`none` models `NaN`.  (The exponent form never occurs in ACLED cells.) -/
def jsParseFloat (s : String) : Option Decimal :=
  let cs := (s.toList).dropWhile isJsSpace
  let (sign, cs) : Int × List Char :=
    match cs with
    | '-' :: rest => (-1, rest)
    | '+' :: rest => (1, rest)
    | _ => (1, cs)
  let intPart := cs.takeWhile Char.isDigit
  let rest := cs.dropWhile Char.isDigit
  match rest with
  | '.' :: rest2 =>
      let frac := rest2.takeWhile Char.isDigit
      if intPart = [] ∧ frac = [] then none
      else some (sign * (natOfDigits (intPart ++ frac) : Int), frac.length)
  | _ =>
      if intPart = [] then none
      else some (sign * (natOfDigits intPart : Int), 0)

/-! ## Date parsing

The script calls `new Date(trimmed)` and checks `isNaN(date.getTime())`.
`jsDateParse` models that parse on the date shapes the ACLED sheets use
(ISO `YYYY-MM-DD`, US `M/D/YYYY`, and `Mon D YYYY` with an English month
name); every other string yields `none` (an Invalid Date).  A parsed date is
encoded as the natural number `y*10000 + m*100 + d`, which orders exactly as
the calendar dates do. -/

/-- The twelve English month names with their numbers. -/
def monthNames : List (String × Nat) :=
  [("january", 1), ("february", 2), ("march", 3), ("april", 4), ("may", 5),
   ("june", 6), ("july", 7), ("august", 8), ("september", 9), ("october", 10),
   ("november", 11), ("december", 12)]

/-- Month number of an English month name or three-letter abbreviation,
case-insensitively. -/
def monthOfName (w : String) : Option Nat :=
  let lw := lowerStr w
  (List.find? (fun mn => mn.1 = lw || ((⟨mn.1.data.take 3⟩ : String) = lw)) monthNames).map
    (fun mn => mn.2)

/-- All characters are decimal digits and the list is nonempty. -/
def allDigits (l : List Char) : Bool := l ≠ [] && l.all Char.isDigit

/-- A 1- or 2-digit numeral. -/
def isNum12 (s : String) : Bool :=
  allDigits s.data && s.data.length ≤ 2

/-- A 4-digit numeral. -/
def isNum4 (s : String) : Bool :=
  allDigits s.data && s.data.length = 4

/-- Calendar-plausible month/day values. -/
def validMD (m d : Nat) : Bool :=
  1 ≤ m && m ≤ 12 && 1 ≤ d && d ≤ 31

/-- Encode a date as `y*10000 + m*100 + d`. -/
def ymd (y m d : Nat) : Nat := y * 10000 + m * 100 + d

/-- Model of `new Date(s)` on the formats relevant to the sheets. -/
def jsDateParse (s : String) : Option Nat :=
  match splitStr '-' s with
  | [y, m, d] =>
      if isNum4 y && isNum12 m && isNum12 d &&
          validMD (natOfDigits m.toList) (natOfDigits d.toList) then
        some (ymd (natOfDigits y.toList) (natOfDigits m.toList)
          (natOfDigits d.toList))
      else none
  | _ =>
  match splitStr '/' s with
  | [m, d, y] =>
      if isNum12 m && isNum12 d && isNum4 y &&
          validMD (natOfDigits m.toList) (natOfDigits d.toList) then
        some (ymd (natOfDigits y.toList) (natOfDigits m.toList)
          (natOfDigits d.toList))
      else none
  | _ =>
  match wordsOf s with
  | [mon, d, y] =>
      match monthOfName mon with
      | some m =>
          if isNum12 d && isNum4 y && validMD m (natOfDigits d.toList) then
            some (ymd (natOfDigits y.toList) m (natOfDigits d.toList))
          else none
      | none => none
  | _ => none

/-! ## parseDate (fetch-weekly-aggregates.ts, lines 55-81)

`parseDate` first tries the direct `new Date(trimmed)` parse; if that is
invalid it walks the explicit regex matchers (`MM/DD/YYYY`, `Month DD YYYY`)
and, for each matching format, calls `new Date(trimmed)` again; if nothing
succeeds it throws `Unable to parse date`.  The function is parametrised by
the `new Date` oracle so that its structure can be compared with a direct
parse for any deterministic date parser; the pipeline instantiates it with
`jsDateParse`. -/

/-- Word character for the `\w` regex class. -/
def isWordChar (c : Char) : Bool := c.isAlphanum || c = '_'

/-- Model of the regex `^(\d{1,2})\/(\d{1,2})\/(\d{4})$`. -/
def matchMDY (s : String) : Bool :=
  match splitStr '/' s with
  | [m, d, y] => isNum12 m && isNum12 d && isNum4 y
  | _ => false

/-- Model of the regex `^(\w+)\s+(\d{1,2})\s+(\d{4})$`. -/
def matchMonthDY (s : String) : Bool :=
  match wordsOf s with
  | [w, d, y] => w.toList ≠ [] && (w.toList.all isWordChar) && isNum12 d && isNum4 y
  | _ => false

/-- Errors a per-region processing run can surface. -/
inductive Err where
  /-- `throw new Error('Unable to parse date: ...')` in parseDate. -/
  | unparseableDate (s : String)
  /-- Postgres unique-index violation on `idx_geographic_area_type_name`. -/
  | areaUniqueViolation (name : String)
  /-- Postgres primary-key violation on `acled_weekly_agg`. -/
  | pkViolation
  /-- Postgres NOT NULL violation: every PRIMARY KEY column is implicitly
  NOT NULL, so a row without a country or admin1 id is rejected. -/
  | notNullViolation
  /-- Postgres rejects `NaN` for an INTEGER column. -/
  | nanInsert
  /-- The `INSERT INTO data_job` issued from the finally block failed. -/
  | ledgerWriteFailure
deriving DecidableEq, Repr

/-- The fallback loop of `parseDate`: for each format regex that matches,
re-run the `new Date` parse and return it when valid. -/
def tryFormats (newDate : String → Option Nat) (trimmed : String) :
    List (String → Bool) → Option Nat
  | [] => none
  | f :: fs =>
    if f trimmed then
      match newDate trimmed with
      | some d => some d
      | none => tryFormats newDate trimmed fs
    else tryFormats newDate trimmed fs

/-- `parseDate` from the source, parametrised by the `new Date` oracle. -/
def parseDateWith (newDate : String → Option Nat) (dateStr : String) :
    Except Err Nat :=
  let trimmed := trimStr dateStr
  match newDate trimmed with
  | some d => Except.ok d
  | none =>
    match tryFormats newDate trimmed [matchMDY, matchMonthDY] with
    | some d => Except.ok d
    | none => Except.error (Err.unparseableDate dateStr)

/-- The concrete `parseDate` used by the pipeline. -/
def parseDate (dateStr : String) : Except Err Nat :=
  parseDateWith jsDateParse dateStr

/-- The specification-side description of `parseDate`: simply the direct
`new Date` parse of the trimmed input, with failure when that parse is
invalid. -/
def directDateParse (newDate : String → Option Nat) (dateStr : String) :
    Except Err Nat :=
  match newDate (trimStr dateStr) with
  | some d => Except.ok d
  | none => Except.error (Err.unparseableDate dateStr)

/-! ## Data model (001_init_db_up.sql) -/

/-- The `geographic_area_type` Postgres enum. -/
inductive GAType where
  | region
  | country
  | admin1
deriving DecidableEq, Repr

/-- A row of the `geographic_area` table (the optional acled_code, iso and
geojson columns are never touched by this pipeline and are omitted). -/
structure GeographicArea where
  id : Nat
  name : String
  type : GAType
  parent : Option Nat
deriving DecidableEq, Repr

/-- A row of the `acled_weekly_agg` table.  `week` is the `ymd` encoding of
the timestamp; the three count columns are `Option Int` where `none` models a
JavaScript `NaN`, and the two centroid columns are `Option` rationals for the
same reason. -/
structure AggRow where
  week : Nat
  regionId : Nat
  countryId : Option Nat
  admin1Id : Option Nat
  disorderType : String
  eventType : String
  eventCount : Option Int
  fatalities : Option Int
  popExposure : Option Int
  longitude : Option Decimal
  latitude : Option Decimal
deriving DecidableEq, Repr

/-- The `meta` JSONB payload written by the pipeline for a `data_job` row. -/
structure JobMeta where
  filename : Option String
  error : Option String
deriving DecidableEq, Repr

/-- A row of the `data_job` table. -/
structure DataJob where
  source : String
  status : String
  duration : Nat
  type : String
  meta : Option JobMeta
deriving DecidableEq, Repr

/-- The tables the per-region transaction touches. -/
structure Store where
  areas : List GeographicArea
  nextAreaId : Nat
  aggs : List AggRow
deriving DecidableEq, Repr

/-- The full database state: the transactional tables plus the `data_job`
ledger, which the script writes through the pool outside the transaction.
Jobs are kept newest first, so `List.find?` models
`ORDER BY created_at DESC LIMIT 1`. -/
structure DB where
  store : Store
  jobs : List DataJob
deriving DecidableEq, Repr

/-! ## Geographic resolver (getOrCreateGeographicArea, lines 84-117) -/

/-- The resolver state inside a transaction: the `geographic_area` table and
the next SERIAL id. -/
structure ResolveSt where
  areas : List GeographicArea
  nextId : Nat
deriving DecidableEq, Repr

/-- The SELECT issued by getOrCreateGeographicArea.  The JavaScript
`if (parentId)` picks the `parent IS NULL` query whenever `parentId` is falsy
(absent or zero). -/
def findArea (areas : List GeographicArea) (name : String) (ty : GAType)
    (parentId : Option Nat) : Option GeographicArea :=
  match jsTruthyNum parentId with
  | true =>
    List.find? (fun a => a.name = name ∧ a.type = ty ∧ a.parent = parentId) areas
  | false =>
    List.find? (fun a => a.name = name ∧ a.type = ty ∧ a.parent = none) areas

/-- getOrCreateGeographicArea: trim the name, look the area up by
(name, type, parent), and otherwise INSERT it.  The INSERT runs against the
unique index `idx_geographic_area_type_name`, which covers only (type, name),
so it fails whenever any area of the same type and name already exists —
regardless of parent. -/
def getOrCreateArea (st : ResolveSt) (name : String) (ty : GAType)
    (parentId : Option Nat) : Except Err (ResolveSt × Nat) :=
  let trimmedName := trimStr name
  match findArea st.areas trimmedName ty parentId with
  | some a => Except.ok (st, a.id)
  | none =>
    if st.areas.any (fun a => a.type = ty ∧ a.name = trimmedName) then
      Except.error (Err.areaUniqueViolation trimmedName)
    else
      Except.ok
        (⟨st.areas ++ [⟨st.nextId, trimmedName, ty,
            if jsTruthyNum parentId then parentId else none⟩],
          st.nextId + 1⟩,
         st.nextId)

/-! ## Row normalisation and collection (processRegionFile, lines 189-250) -/

/-- A per-load string-keyed cache (`Map<string, number>`). -/
abbrev Cache := List (String × Nat)

/-- `cache.get` / `cache.has`. -/
def cacheGet (c : Cache) (k : String) : Option Nat :=
  (List.find? (fun kv => kv.1 = k) c).map (fun kv => kv.2)

/-- The state threaded through the row loop: the resolver tables, the two
geographic caches, and the `aggregateData` accumulator. -/
structure LoopSt where
  rs : ResolveSt
  countryCache : Cache
  admin1Cache : Cache
  data : List AggRow

/-- Column alias chains used by the row loop. -/
def weekAliases : List String := ["Week", "week", "DATE", "date"]

/-- The string field extractions, e.g.
`(row['Country'] || row['country'] || '').trim()`. -/
def strField (row : RawRow) (aliases : List String) : String :=
  trimStr (jsOrStr (aliases.map (rowGet row)) "")

/-- The numeric field extractions, e.g.
`parseInt(row['Events'] || row['events'] || row['event_count'] || '0')`. -/
def numField (row : RawRow) (aliases : List String) : Option Int :=
  jsParseInt (jsOrStr (aliases.map (rowGet row)) "0")

/-- The centroid field extractions via `parseFloat`. -/
def floatField (row : RawRow) (aliases : List String) : Option Decimal :=
  jsParseFloat (jsOrStr (aliases.map (rowGet row)) "0")

/-- The week cell: `row['Week'] || row['week'] || row['DATE'] || row['date']`
followed by the `if (!weekStr)` skip test. -/
def weekCell (row : RawRow) : Option String :=
  jsFirstTruthy (weekAliases.map (rowGet row))

/-- Country resolution with the per-load cache (lines 210-219). -/
def resolveCountry (st : LoopSt) (regionId : Nat) (countryName : String) :
    Except Err (LoopSt × Option Nat) :=
  if countryName = "" then Except.ok (st, none)
  else
    match cacheGet st.countryCache countryName with
    | some cid => Except.ok (st, some cid)
    | none =>
      match getOrCreateArea st.rs countryName GAType.country (some regionId) with
      | Except.error e => Except.error e
      | Except.ok (rs', cid) =>
        let st' : LoopSt :=
          { st with rs := rs', countryCache := st.countryCache ++ [(countryName, cid)] }
        Except.ok (st', some cid)

/-- Admin1 resolution with the per-load cache (lines 221-231); only attempted
when both the admin1 name and the country id are truthy, and keyed by
`countryId + ":" + admin1Name`. -/
def resolveAdmin1 (st : LoopSt) (countryId : Option Nat) (admin1Name : String) :
    Except Err (LoopSt × Option Nat) :=
  match countryId with
  | some c =>
    if admin1Name = "" ∨ c = 0 then Except.ok (st, none)
    else
      let key := natToStr c ++ ":" ++ admin1Name
      match cacheGet st.admin1Cache key with
      | some aid => Except.ok (st, some aid)
      | none =>
        match getOrCreateArea st.rs admin1Name GAType.admin1 (some c) with
        | Except.error e => Except.error e
        | Except.ok (rs', aid) =>
          let st' : LoopSt :=
            { st with rs := rs', admin1Cache := st.admin1Cache ++ [(key, aid)] }
          Except.ok (st', some aid)
  | none => Except.ok (st, none)

/-- One iteration of the row loop (lines 189-250): extract and coerce the
fields, skip the row when the week cell is falsy, parse the week (a parse
failure is re-thrown and aborts the batch), resolve the country and admin1
areas, and push the aggregate.  Sub-event columns are never consulted. -/
def processRow (regionId : Nat) (st : LoopSt) (row : RawRow) :
    Except Err LoopSt :=
  let countryName := strField row ["Country", "country"]
  let admin1Name := strField row ["Admin1", "admin1", "Admin 1"]
  let disorderType := strField row ["Disorder Type", "disorder_type"]
  let eventType := strField row ["Event Type", "event_type"]
  let eventCount := numField row ["Events", "events", "event_count"]
  let fatalities := numField row ["Fatalities", "fatalities"]
  let popExposure := numField row ["Population Exposure", "population_exposure"]
  let longitude := floatField row ["Longitude", "longitude", "centroid_longitude"]
  let latitude := floatField row ["Latitude", "latitude", "centroid_latitude"]
  match weekCell row with
  | none => Except.ok st
  | some weekStr =>
    match parseDate weekStr with
    | Except.error e => Except.error e
    | Except.ok week =>
      match resolveCountry st regionId countryName with
      | Except.error e => Except.error e
      | Except.ok (st1, countryId) =>
        match resolveAdmin1 st1 countryId admin1Name with
        | Except.error e => Except.error e
        | Except.ok (st2, admin1Id) =>
          Except.ok
            { st2 with data := st2.data ++
                [⟨week, regionId, countryId, admin1Id, disorderType,
                  eventType, eventCount, fatalities, popExposure,
                  longitude, latitude⟩] }

/-- The whole row loop. -/
def collectRows (regionId : Nat) (st : LoopSt) : List RawRow → Except Err LoopSt
  | [] => Except.ok st
  | row :: rest =>
    match processRow regionId st row with
    | Except.error e => Except.error e
    | Except.ok st' => collectRows regionId st' rest

/-! ## Batch insert (lines 252-296) and retire (lines 298-306) -/

/-- Primary-key comparison for `acled_weekly_agg`
(`PRIMARY KEY (week, region_id, country_id, admin1_id)`). -/
def pkEq (a b : AggRow) : Bool :=
  a.week = b.week ∧ a.regionId = b.regionId ∧
  a.countryId = b.countryId ∧ a.admin1Id = b.admin1Id

/-- Insert one aggregate row, enforcing the constraints of the schema: the
implicit NOT NULL on all primary-key columns, INTEGER columns rejecting NaN,
and primary-key uniqueness. -/
def insertAgg (aggs : List AggRow) (r : AggRow) : Except Err (List AggRow) :=
  if r.countryId = none ∨ r.admin1Id = none then
    Except.error Err.notNullViolation
  else if r.eventCount = none ∨ r.fatalities = none ∨ r.popExposure = none then
    Except.error Err.nanInsert
  else if aggs.any (fun x => pkEq x r) then
    Except.error Err.pkViolation
  else
    Except.ok (aggs ++ [r])

/-- Insert a list of aggregate rows one after the other. -/
def insertAll (aggs : List AggRow) : List AggRow → Except Err (List AggRow)
  | [] => Except.ok aggs
  | r :: rest =>
    match insertAgg aggs r with
    | Except.error e => Except.error e
    | Except.ok aggs' => insertAll aggs' rest

/-- Fuel-driven chunking worker: one step per chunk, with enough fuel the
result is the list of consecutive 5000-row slices. -/
def chunksOfAux : Nat → List AggRow → List (List AggRow)
  | _, [] => []
  | 0, l => [l]
  | fuel + 1, l => l.take 5000 :: chunksOfAux fuel (l.drop 5000)

/-- Split a list into chunks of `BATCH_SIZE = 5000` rows, mirroring the
`for (let i = 0; i < aggregateData.length; i += BATCH_SIZE)` loop.  The
length of the list is always enough fuel since every chunk consumes at least
one element. -/
def chunksOf5000 (l : List AggRow) : List (List AggRow) :=
  chunksOfAux l.length l

/-- The chunked batch insert: each chunk is one multi-row INSERT, and inside
the transaction the chunks behave as sequential row inserts. -/
def insertPhase (aggs : List AggRow) (rs : List AggRow) :
    Except Err (List AggRow) :=
  (chunksOf5000 rs).foldlM insertAll aggs

/-- Insert a `week` value into a descending-sorted list. -/
def insDesc (a : Nat) : List Nat → List Nat
  | [] => [a]
  | b :: l => if a ≤ b then b :: insDesc a l else a :: b :: l

/-- Sort weeks in descending order (`ORDER BY week DESC`). -/
def sortDesc (l : List Nat) : List Nat := l.foldr insDesc []

/-- The weeks of the region rows of the table
(`SELECT week FROM acled_weekly_agg WHERE region_id = $1`). -/
def regionWeeks (rid : Nat) (aggs : List AggRow) : List Nat :=
  (aggs.filter (fun r => r.regionId = rid)).map (fun r => r.week)

/-- `SELECT MIN(week) FROM (... ORDER BY week DESC LIMIT n)`. -/
def minTopN (n : Nat) (ws : List Nat) : Option Nat :=
  ((sortDesc ws).take n).min?

/-- The DELETE of lines 298-306: remove every row of the region whose week is
strictly below the minimum of the region rows with the `n` largest weeks,
where `n` is the raw row count of the sheet.  When the subquery is empty its
MIN is NULL and the comparison deletes nothing. -/
def retireOld (rid : Nat) (n : Nat) (aggs : List AggRow) : List AggRow :=
  match minTopN n (regionWeeks rid aggs) with
  | none => aggs
  | some m => aggs.filter (fun r => ¬ (r.regionId = rid ∧ r.week < m))

/-! ## The per-region transaction body (lines 163-312) -/

/-- Everything `processRegionFile` does between BEGIN and COMMIT: resolve the
region area, run the row loop, batch-insert the collected aggregates, and
retire the old rows.  The result is the store the COMMIT would make durable;
an error means the transaction is rolled back. -/
def loadBody (region : String) (rows : List RawRow) (st : Store) :
    Except Err Store :=
  match getOrCreateArea ⟨st.areas, st.nextAreaId⟩ region GAType.region none with
  | Except.error e => Except.error e
  | Except.ok (rs0, regionId) =>
    match collectRows regionId ⟨rs0, [], [], []⟩ rows with
    | Except.error e => Except.error e
    | Except.ok lst =>
      match insertPhase st.aggs lst.data with
      | Except.error e => Except.error e
      | Except.ok aggs1 =>
        Except.ok ⟨lst.rs.areas, lst.rs.nextId,
          retireOld regionId rows.length aggs1⟩

/-- Human-readable message of an error, as stored into `meta.error`. -/
def errMessage : Err → String
  | Err.unparseableDate s => "Unable to parse date: " ++ s
  | Err.areaUniqueViolation n => "duplicate key value violates unique constraint idx_geographic_area_type_name: " ++ n
  | Err.pkViolation => "duplicate key value violates primary key acled_weekly_agg_pkey"
  | Err.notNullViolation => "null value in primary key column violates not-null constraint"
  | Err.nanInsert => "invalid input syntax for type integer: NaN"
  | Err.ledgerWriteFailure => "failed to insert data_job row"

/-- The `data_job` row written in the finally block (lines 326-332). -/
def mkJob (region : String) (duration : Nat) (filename : String)
    (txResult : Except Err Store) : DataJob :=
  { source := region,
    status := match txResult with
      | Except.ok _ => "successful"
      | Except.error _ => "failed",
    duration := duration,
    type := "acled_weekly_agg",
    meta := some
      { filename := some filename,
        error := match txResult with
          | Except.ok _ => none
          | Except.error e => some (errMessage e) } }

/-- `processRegionFile(region, filePath, filename)` from the already-parsed
rows onwards: open a transaction, run `loadBody`, COMMIT on success or
ROLLBACK on error, and in the finally block insert a `data_job` row through
the pool (a separate connection, outside the transaction).  `ledgerOk` is the
outcome of that INSERT - it is real I/O and can itself fail; when it does,
the exception raised in the finally block replaces the original result
(JavaScript try/finally semantics) and no job row is stored.  `duration`
stands for the measured wall-clock duration. -/
def processRegionFile (db : DB) (region : String) (rows : List RawRow)
    (filename : String) (ledgerOk : Bool) (duration : Nat) :
    Except Err Unit × DB :=
  let txResult := loadBody region rows db.store
  let (res, store1) : Except Err Unit × Store :=
    match txResult with
    | Except.ok st' => (Except.ok (), st')
    | Except.error e => (Except.error e, db.store)
  if ledgerOk then
    (res, ⟨store1, mkJob region duration filename txResult :: db.jobs⟩)
  else
    (Except.error Err.ledgerWriteFailure, ⟨store1, db.jobs⟩)

/-- The database state after one `processRegionFile` call. -/
def runOnce (db : DB) (region : String) (rows : List RawRow)
    (filename : String) (ledgerOk : Bool) (duration : Nat) : DB :=
  (processRegionFile db region rows filename ledgerOk duration).2

/-! ## Change detection (hasFilenameChanged, lines 120-137) -/

/-- `SELECT meta FROM data_job WHERE type = 'acled_weekly_agg' AND source =
$1 AND status = 'successful' ORDER BY created_at DESC LIMIT 1` over the
newest-first jobs list. -/
def latestSuccessfulJob (jobs : List DataJob) (region : String) :
    Option DataJob :=
  List.find?
    (fun j => j.type = "acled_weekly_agg" ∧ j.source = region ∧
      j.status = "successful") jobs

/-- The stored fingerprint of a job: `rows[0]?.meta?.filename`, `none` when
the metadata or its filename field is missing or malformed. -/
def jobFingerprint (j : DataJob) : Option String :=
  j.meta.bind (fun m => m.filename)

/-- `hasFilenameChanged(region, filename)`. -/
def hasFilenameChanged (db : DB) (region filename : String) : Bool :=
  match latestSuccessfulJob db.jobs region with
  | none => true
  | some j => jobFingerprint j ≠ some filename

/-! ## The ACLED vocabulary (packages/api/types/acled/acled.go)

The Go API types define the closed sub-event vocabulary and its grouping by
parent event type; the helper functions GetXSubEventTypes are embedded
verbatim as string lists.  The TypeScript ingester never consults them. -/

/-- GetBattlesSubEventTypes. -/
def battlesSubEventTypes : List String :=
  ["Government regains territory", "Non-state actor overtakes territory",
   "Armed clash"]

/-- GetProtestsSubEventTypes. -/
def protestsSubEventTypes : List String :=
  ["Excessive force against protesters", "Protest with intervention",
   "Peaceful protest"]

/-- GetRiotsSubEventTypes. -/
def riotsSubEventTypes : List String :=
  ["Violent demonstration", "Mob violence"]

/-- GetExplosionsRemoteViolenceSubEventTypes. -/
def explosionsSubEventTypes : List String :=
  ["Chemical weapon", "Air/drone strike", "Suicide bomb",
   "Shelling/artillery/missile attack", "Remote explosive/landmine/IED",
   "Grenade"]

/-- GetViolenceAgainstCiviliansSubEventTypes. -/
def vaCiviliansSubEventTypes : List String :=
  ["Sexual violence", "Attack", "Abduction/forced disappearance"]

/-- GetStrategicDevelopmentsSubEventTypes. -/
def strategicSubEventTypes : List String :=
  ["Agreement", "Arrests", "Change to group/activity",
   "Disrupted weapons use", "Headquarters or base established",
   "Looting/property destruction", "Non-violent transfer of territory",
   "Other"]

/-! ## Theorems -/

/-- Decidable equality of computation results. -/
instance {ε α : Type} [DecidableEq ε] [DecidableEq α] :
    DecidableEq (Except ε α) := fun x y =>
  match x, y with
  | Except.ok a, Except.ok b => decidable_of_iff (a = b) (by simp)
  | Except.error a, Except.error b => decidable_of_iff (a = b) (by simp)
  | Except.ok _, Except.error _ => isFalse (by simp)
  | Except.error _, Except.ok _ => isFalse (by simp)

/-- The fallback loop cannot succeed once the direct parse failed, because
every branch re-runs the same parse. -/
theorem tryFormats_none (newDate : String → Option Nat) (t : String)
    (h : newDate t = none) :
    ∀ fs : List (String → Bool), tryFormats newDate t fs = none := by
  intro fs
  induction fs with
  | nil => rfl
  | cons f fs ih =>
    simp only [tryFormats, h, ih]
    split <;> rfl

/-- C10: parseDate is equivalent to the direct Date parse of the trimmed
input.  For every deterministic `new Date` oracle and every input string,
`parseDate` succeeds with a date exactly when the initial direct parse of the
trimmed string yields that date; the explicit pattern-matcher fallback loop
never contributes a successful result, since each of its branches re-runs the
direct parse that already failed. -/
theorem parseDate_refines_directParse (newDate : String → Option Nat)
    (dateStr : String) :
    parseDateWith newDate dateStr = directDateParse newDate dateStr := by
  unfold parseDateWith directDateParse
  simp only []
  cases h : newDate (trimStr dateStr) with
  | some d => simp [h]
  | none => simp [h, tryFormats_none newDate (trimStr dateStr) h]

/-- C3: change detection.  `hasFilenameChanged` returns true when no
successful job exists for the source; when a most-recent successful job
exists it returns true exactly when the stored fingerprint differs from the
candidate; and a missing or malformed fingerprint in that job metadata is
treated as changed. -/
theorem hasFilenameChanged_spec (db : DB) (region filename : String) :
    (latestSuccessfulJob db.jobs region = none →
      hasFilenameChanged db region filename = true) ∧
    (∀ j, latestSuccessfulJob db.jobs region = some j →
      ((hasFilenameChanged db region filename = true ↔
        jobFingerprint j ≠ some filename) ∧
       (jobFingerprint j = none →
        hasFilenameChanged db region filename = true))) := by
  constructor
  · intro h
    simp [hasFilenameChanged, h]
  · intro j hj
    constructor
    · simp [hasFilenameChanged, hj]
    · intro hnone
      simp [hasFilenameChanged, hj, hnone]

/-- A first run with an empty ledger proceeds, and a run whose latest
successful job recorded the fingerprint "file_v1.xlsx" is skipped for the
same candidate: the change-detection theorem instantiated at concrete
states. -/
theorem hasFilenameChanged_spec_witness :
    hasFilenameChanged ⟨⟨[], 1, []⟩, []⟩ "Middle East" "file_v1.xlsx" = true ∧
    ¬ hasFilenameChanged
        ⟨⟨[], 1, []⟩,
         [⟨"Middle East", "successful", 10, "acled_weekly_agg",
           some ⟨some "file_v1.xlsx", none⟩⟩]⟩
        "Middle East" "file_v1.xlsx" = true := by
  constructor
  · exact (hasFilenameChanged_spec ⟨⟨[], 1, []⟩, []⟩ "Middle East"
      "file_v1.xlsx").1 (by decide)
  · have h := (hasFilenameChanged_spec
      ⟨⟨[], 1, []⟩,
       [⟨"Middle East", "successful", 10, "acled_weekly_agg",
         some ⟨some "file_v1.xlsx", none⟩⟩]⟩
      "Middle East" "file_v1.xlsx").2
      ⟨"Middle East", "successful", 10, "acled_weekly_agg",
        some ⟨some "file_v1.xlsx", none⟩⟩ (by decide)
    intro hc
    exact (h.1.mp hc) (by decide)

/-! ### Shared fixtures for concrete evaluations -/

/-- A fully valid sample sheet row. -/
def sampleRow : RawRow :=
  [("Week", "2022-11-19"), ("Country", "Syria"), ("Admin1", "Aleppo"),
   ("Disorder Type", "Political violence"), ("Event Type", "Battles"),
   ("Events", "5"), ("Fatalities", "2"), ("Population Exposure", "1000"),
   ("Longitude", "37"), ("Latitude", "36")]

/-- A row whose week cell is present but unparseable. -/
def badDateRow : RawRow := [("Week", "garbage"), ("Country", "Syria")]

/-- An empty database. -/
def emptyDB : DB := ⟨⟨[], 1, []⟩, []⟩

/-! ### C1: atomicity of the per-source load -/

/-- Rollback: when the transaction body fails, the store handed back by
`processRegionFile` is exactly the pre-call store (shared by several
theorems below). -/
theorem store_preserved_of_bodyError (db : DB) (region : String)
    (rows : List RawRow) (filename : String) (ledgerOk : Bool)
    (duration : Nat) (e : Err)
    (h : loadBody region rows db.store = Except.error e) :
    (runOnce db region rows filename ledgerOk duration).store = db.store := by
  unfold runOnce processRegionFile
  rw [h]
  cases ledgerOk <;> rfl

/-- C1: per-source loads are atomic.  If any step of the transaction body
fails (the body covers everything between BEGIN and COMMIT, including a
failure on the last row), the store for that region is unchanged from before
the call: no AggregateRecord rows are inserted or deleted and no
GeographicArea rows created inside the transaction persist; moreover the
call does not report success. -/
theorem loadBatch_atomic (db : DB) (region : String) (rows : List RawRow)
    (filename : String) (ledgerOk : Bool) (duration : Nat) (e : Err)
    (h : loadBody region rows db.store = Except.error e) :
    (runOnce db region rows filename ledgerOk duration).store.aggs =
      db.store.aggs ∧
    (runOnce db region rows filename ledgerOk duration).store.areas =
      db.store.areas ∧
    (processRegionFile db region rows filename ledgerOk duration).1 ≠
      Except.ok () := by
  have hs := store_preserved_of_bodyError db region rows filename ledgerOk
    duration e h
  refine ⟨by rw [hs], by rw [hs], ?_⟩
  unfold processRegionFile
  rw [h]
  cases ledgerOk <;> simp

/-- C1 at a concrete input: a batch whose last row has an unparseable week
fails, and the store (which the successfully processed first row would
otherwise have extended) is byte-for-byte the pre-call store. -/
theorem loadBatch_atomic_witness :
    loadBody "Middle East" [sampleRow, badDateRow] emptyDB.store =
      Except.error (Err.unparseableDate "garbage") ∧
    (runOnce emptyDB "Middle East" [sampleRow, badDateRow] "f.xlsx" true
      10).store.aggs = emptyDB.store.aggs := by
  have h : loadBody "Middle East" [sampleRow, badDateRow] emptyDB.store =
      Except.error (Err.unparseableDate "garbage") := by decide
  exact ⟨h, (loadBatch_atomic emptyDB "Middle East" [sampleRow, badDateRow]
    "f.xlsx" true 10 (Err.unparseableDate "garbage") h).1⟩

/-! ### C2: a present but unparseable week is fatal to the batch -/

/-- Counterexample to C2: a batch holding one fully valid row and one row
whose week value is present but unparseable does NOT load the rest of the
batch.  The whole call fails with UnparseableDate, the transaction is rolled
back, zero aggregate rows persist, and the job is recorded as failed. -/
theorem unparseableDate_not_rowLevel_cex :
    (processRegionFile emptyDB "Middle East" [sampleRow, badDateRow]
      "f.xlsx" true 10).1 =
      Except.error (Err.unparseableDate "garbage") ∧
    (runOnce emptyDB "Middle East" [sampleRow, badDateRow] "f.xlsx" true
      10).store.aggs = [] ∧
    (runOnce emptyDB "Middle East" [sampleRow, badDateRow] "f.xlsx" true
      10).jobs.map (fun j => j.status) = ["failed"] := by
  refine ⟨by decide, by decide, by decide⟩

/-- `processRow` fails as soon as the week cell is truthy but unparseable. -/
theorem processRow_error_of_badWeek (regionId : Nat) (st : LoopSt)
    (row : RawRow) (ws : String) (e : Err) (hw : weekCell row = some ws)
    (hp : parseDate ws = Except.error e) :
    processRow regionId st row = Except.error e := by
  simp only [processRow, hw, hp]

/-- The row loop fails whenever any of its rows fails. -/
theorem collectRows_error_of_rowError (regionId : Nat) (row : RawRow)
    (hrow : ∀ st : LoopSt, ∃ e, processRow regionId st row = Except.error e) :
    ∀ (pre post : List RawRow) (st : LoopSt),
      ∃ e, collectRows regionId st (pre ++ row :: post) = Except.error e := by
  intro pre
  induction pre with
  | nil =>
    intro post st
    obtain ⟨e, he⟩ := hrow st
    exact ⟨e, by simp [collectRows, he]⟩
  | cons p pre ih =>
    intro post st
    simp only [List.cons_append, collectRows]
    cases hp : processRow regionId st p with
    | error e => exact ⟨e, rfl⟩
    | ok st' => exact ih post st'

/-- C2 amended: a row whose week value is present but unparseable is not
skipped; it aborts the entire batch.  Whenever such a row occurs anywhere in
the batch, the whole call fails and the transaction is rolled back, leaving
the store unchanged.  (Only a row whose week cell is absent or empty is
skipped non-fatally.) -/
theorem unparseableDate_aborts_batch (db : DB) (region filename : String)
    (pre post : List RawRow) (row : RawRow) (ledgerOk : Bool)
    (duration : Nat) (ws : String) (e : Err)
    (hw : weekCell row = some ws)
    (hp : parseDate ws = Except.error e) :
    (∃ e2, loadBody region (pre ++ row :: post) db.store =
      Except.error e2) ∧
    (runOnce db region (pre ++ row :: post) filename ledgerOk
      duration).store = db.store := by
  have hbody : ∃ e2, loadBody region (pre ++ row :: post) db.store =
      Except.error e2 := by
    unfold loadBody
    cases hg : getOrCreateArea ⟨db.store.areas, db.store.nextAreaId⟩ region
        GAType.region none with
    | error e3 => exact ⟨e3, rfl⟩
    | ok p =>
      obtain ⟨rs0, rid⟩ := p
      have hrow2 : ∀ st : LoopSt, ∃ e2, processRow rid st row =
          Except.error e2 := fun st =>
        ⟨e, processRow_error_of_badWeek rid st row ws e hw hp⟩
      obtain ⟨e2, he2⟩ := collectRows_error_of_rowError rid row hrow2 pre
        post ⟨rs0, [], [], []⟩
      exact ⟨e2, by simp [he2]⟩
  obtain ⟨e2, he2⟩ := hbody
  exact ⟨⟨e2, he2⟩, store_preserved_of_bodyError db region _ filename
    ledgerOk duration e2 he2⟩

/-- The amended C2 statement at a concrete input: the unparseable-week row
placed after a valid row aborts the load and preserves the store. -/
theorem unparseableDate_aborts_batch_witness :
    weekCell badDateRow = some "garbage" ∧
    parseDate "garbage" = Except.error (Err.unparseableDate "garbage") ∧
    (runOnce emptyDB "Middle East" [sampleRow, badDateRow] "g.xlsx" true
      7).store = emptyDB.store := by
  refine ⟨by decide, by decide, ?_⟩
  exact (unparseableDate_aborts_batch emptyDB "Middle East" "g.xlsx"
    [sampleRow] [] badDateRow true 7 "garbage"
    (Err.unparseableDate "garbage") (by decide) (by decide)).2

/-! ### C4: what the retire step actually deletes -/

/-- The geographic areas used by the preloaded-store fixtures. -/
def presetAreas : List GeographicArea :=
  [⟨1, "Middle East", GAType.region, none⟩,
   ⟨2, "Syria", GAType.country, some 1⟩,
   ⟨3, "Aleppo", GAType.admin1, some 2⟩]

/-- A pre-existing aggregate row of the region whose week is newer than the
incoming batch. -/
def newerOldRow : AggRow :=
  ⟨20221231, 1, some 2, some 3, "Political violence", "Battles",
   some 1, some 0, some 0, some (0, 0), some (0, 0)⟩

/-- The aggregate record that `sampleRow` normalises to. -/
def sampleInserted : AggRow :=
  ⟨20221119, 1, some 2, some 3, "Political violence", "Battles",
   some 5, some 2, some 1000, some (37, 0), some (36, 0)⟩

/-- Counterexample to C4.  The retire threshold is computed over the region
rows of the whole table after the insert, not over the just-inserted weeks:
with one pre-existing newer row (week 20221231) and a one-row batch (week
20221119, so N = 1), the load succeeds but deletes the row it just inserted.
Under the claim the threshold would be the oldest of the newest 1 inserted
weeks, 20221119, and no row is older than that, so nothing would be
deleted. -/
theorem retire_deletes_fresh_insert_cex :
    loadBody "Middle East" [sampleRow] ⟨presetAreas, 4, [newerOldRow]⟩ =
      Except.ok ⟨presetAreas, 4, [newerOldRow]⟩ ∧
    minTopN 1 [sampleInserted.week] = some sampleInserted.week ∧
    ¬ sampleInserted.week < sampleInserted.week := by
  refine ⟨by decide, by decide, by decide⟩

/-- A successful transaction body decomposes into its four phases: region
resolution, row collection, chunked insert, and the retire step over the
post-insert table with the raw sheet row count. -/
theorem loadBody_ok_decomp {region : String} {rows : List RawRow}
    {st st2 : Store} (h : loadBody region rows st = Except.ok st2) :
    ∃ rs0 rid lst aggs1,
      getOrCreateArea ⟨st.areas, st.nextAreaId⟩ region GAType.region none =
        Except.ok (rs0, rid) ∧
      collectRows rid ⟨rs0, [], [], []⟩ rows = Except.ok lst ∧
      insertPhase st.aggs lst.data = Except.ok aggs1 ∧
      st2 = ⟨lst.rs.areas, lst.rs.nextId,
        retireOld rid rows.length aggs1⟩ := by
  unfold loadBody at h
  cases hg : getOrCreateArea ⟨st.areas, st.nextAreaId⟩ region
      GAType.region none with
  | error e => rw [hg] at h; cases h
  | ok p =>
    obtain ⟨rs0, rid⟩ := p
    rw [hg] at h
    simp only at h
    cases hc : collectRows rid ⟨rs0, [], [], []⟩ rows with
    | error e => rw [hc] at h; cases h
    | ok lst =>
      rw [hc] at h
      simp only at h
      cases hi : insertPhase st.aggs lst.data with
      | error e => rw [hi] at h; cases h
      | ok aggs1 =>
        rw [hi] at h
        simp only at h
        cases h
        exact ⟨rs0, rid, lst, aggs1, rfl, hc, hi, rfl⟩

/-- C4 amended: the retire step of a successful load deletes exactly the
rows of the loaded region (possibly including just-inserted ones) whose week
is strictly older than the minimum week among the `n` largest-week region
rows of the table contents after the insert, where `n` is the raw row count
of the sheet (including rows skipped for a missing week); the deletion is
part of the same transaction body as the inserts. -/
theorem retire_semantics_amended :
    (∀ (rid n : Nat) (aggs : List AggRow) (r : AggRow),
      r ∈ retireOld rid n aggs ↔
        (r ∈ aggs ∧ (r.regionId = rid →
          ∀ m, minTopN n (regionWeeks rid aggs) = some m → m ≤ r.week))) ∧
    (∀ (region : String) (rows : List RawRow) (st st2 : Store),
      loadBody region rows st = Except.ok st2 →
      ∃ rs0 rid lst aggs1,
        getOrCreateArea ⟨st.areas, st.nextAreaId⟩ region GAType.region none =
          Except.ok (rs0, rid) ∧
        collectRows rid ⟨rs0, [], [], []⟩ rows = Except.ok lst ∧
        insertPhase st.aggs lst.data = Except.ok aggs1 ∧
        st2 = ⟨lst.rs.areas, lst.rs.nextId,
          retireOld rid rows.length aggs1⟩) := by
  constructor
  · intro rid n aggs r
    unfold retireOld
    cases h : minTopN n (regionWeeks rid aggs) with
    | none => simp
    | some m =>
      simp only [List.mem_filter, decide_eq_true_eq]
      constructor
      · rintro ⟨hmem, hkeep⟩
        refine ⟨hmem, fun hrid m2 hm2 => ?_⟩
        cases hm2
        by_contra hlt
        exact hkeep ⟨hrid, Nat.lt_of_not_le hlt⟩
      · rintro ⟨hmem, hkeep⟩
        refine ⟨hmem, fun hbad => ?_⟩
        exact Nat.not_lt.mpr (hkeep hbad.1 m rfl) hbad.2
  · intro region rows st st2 h
    exact loadBody_ok_decomp h

/-- The amended retire semantics at the concrete counterexample input: the
decomposition of the successful load of `sampleRow` over the preloaded
store. -/
theorem retire_semantics_amended_witness :
    ∃ rs0 rid lst aggs1,
      getOrCreateArea ⟨presetAreas, 4⟩ "Middle East" GAType.region none =
        Except.ok (rs0, rid) ∧
      collectRows rid ⟨rs0, [], [], []⟩ [sampleRow] = Except.ok lst ∧
      insertPhase [newerOldRow] lst.data = Except.ok aggs1 ∧
      (⟨presetAreas, 4, [newerOldRow]⟩ : Store) =
        ⟨lst.rs.areas, lst.rs.nextId, retireOld rid 1 aggs1⟩ := by
  have h := retire_semantics_amended.2 "Middle East" [sampleRow]
    ⟨presetAreas, 4, [newerOldRow]⟩ ⟨presetAreas, 4, [newerOldRow]⟩
    (by decide)
  exact h

/-! ### C5: the job ledger write -/

/-- Counterexample to C5: a failure of the ledger INSERT itself is not
swallowed.  With a batch that fails with UnparseableDate, a failing
`data_job` write makes the whole call surface `ledgerWriteFailure` instead of
the original ingestion error — the ledger failure throws to the caller and
masks the real cause — and no job row is recorded at all. -/
theorem ledger_failure_masks_cex :
    loadBody "Middle East" [badDateRow] emptyDB.store =
      Except.error (Err.unparseableDate "garbage") ∧
    (processRegionFile emptyDB "Middle East" [badDateRow] "f.xlsx" false
      10).1 = Except.error Err.ledgerWriteFailure ∧
    Err.ledgerWriteFailure ≠ Err.unparseableDate "garbage" ∧
    (runOnce emptyDB "Middle East" [badDateRow] "f.xlsx" false 10).jobs =
      [] := by
  refine ⟨by decide, by decide, by decide, by decide⟩

/-- C5 amended: whenever `processRegionFile` runs, exactly one `data_job`
row is prepended to the ledger - outside the load transaction and also when
the load failed - provided the ledger INSERT itself succeeds; but the ledger
write is not guarded: when that INSERT fails, the call raises
`ledgerWriteFailure` to its caller (replacing the original ingestion
outcome) and no job row is stored. -/
theorem ledger_record_semantics (db : DB) (region : String)
    (rows : List RawRow) (filename : String) (duration : Nat) :
    (runOnce db region rows filename true duration).jobs =
      mkJob region duration filename (loadBody region rows db.store) ::
        db.jobs ∧
    (processRegionFile db region rows filename false duration).1 =
      Except.error Err.ledgerWriteFailure ∧
    (runOnce db region rows filename false duration).jobs = db.jobs := by
  unfold runOnce processRegionFile
  cases h : loadBody region rows db.store <;> simp [h]

/-! ### C6: the geographic uniqueness constraint omits the parent -/

/-- Areas of one region with two countries, and one admin1 under the
first country. -/
def hierarchyAreas : List GeographicArea :=
  [⟨1, "Middle East", GAType.region, none⟩,
   ⟨2, "Syria", GAType.country, some 1⟩,
   ⟨3, "Lebanon", GAType.country, some 1⟩,
   ⟨4, "Idlib", GAType.admin1, some 2⟩]

/-- C6: resolving the same (trimmed name, type, parent) twice returns the
existing row and creates nothing, but resolving the same (name, type) under
a different parent does NOT create a second distinct row: the INSERT
violates the unique index `idx_geographic_area_type_name`, which covers
only (type, name), so the resolver errors out instead.  The resolver logic
alone would have created the second row; the schema forbids it. -/
theorem area_unique_index_blocks_second_parent :
    getOrCreateArea ⟨hierarchyAreas, 5⟩ "Idlib" GAType.admin1 (some 2) =
      Except.ok (⟨hierarchyAreas, 5⟩, 4) ∧
    getOrCreateArea ⟨hierarchyAreas, 5⟩ "Idlib" GAType.admin1 (some 3) =
      Except.error (Err.areaUniqueViolation "Idlib") := by
  refine ⟨by decide, by decide⟩

/-! ### C8: numeric coercion -/

/-- The alias chain of the event-count column. -/
def eventAliases : List String := ["Events", "events", "event_count"]

/-- Counterexample to C8: a present but unparseable numeric cell is coerced
to NaN (not zero), and a negative numeral is preserved, so counts can be
negative. -/
theorem numeric_coercion_cex :
    numField [("Events", "abc")] eventAliases = none ∧
    numField [("Events", "abc")] eventAliases ≠ some 0 ∧
    numField [("Events", "-5")] eventAliases = some (-5) ∧
    ((-5 : Int) < 0) := by
  refine ⟨by decide, by decide, by decide, by decide⟩

/-- `jsOrStr` returns the default when every alternative is falsy. -/
theorem jsOrStr_all_falsy (dflt : String) :
    ∀ vals : List (Option String),
      (∀ v ∈ vals, jsTruthyStr v = false) → jsOrStr vals dflt = dflt := by
  intro vals
  induction vals with
  | nil => intro _; rfl
  | cons v rest ih =>
    intro h
    cases v with
    | none => exact ih (fun w hw => h w (List.mem_cons_of_mem _ hw))
    | some s =>
      have hs : jsTruthyStr (some s) = false := h _ (List.mem_cons_self _ _)
      have : s = "" := by
        by_contra hne
        simp [jsTruthyStr, hne] at hs
      simp only [jsOrStr, this, if_pos rfl]
      exact ih (fun w hw => h w (List.mem_cons_of_mem _ hw))

/-- C8 amended: a numeric field is coerced to zero exactly when every alias
of the column is absent or empty (falsy); then the chain falls through to
the literal "0".  (A present unparseable cell instead yields NaN, and
negative numerals are passed through, as the counterexample shows.) -/
theorem numField_zero_default (row : RawRow) (aliases : List String)
    (h : ∀ a ∈ aliases, jsTruthyStr (rowGet row a) = false) :
    numField row aliases = some 0 := by
  unfold numField
  have : jsOrStr (aliases.map (rowGet row)) "0" = "0" := by
    refine jsOrStr_all_falsy "0" _ ?_
    intro v hv
    obtain ⟨a, ha, rfl⟩ := List.mem_map.mp hv
    exact h a ha
  rw [this]
  decide

/-- The zero default at a concrete input: a row whose event-count cell is
the empty string. -/
theorem numField_zero_default_witness :
    numField [("Events", "")] eventAliases = some 0 :=
  numField_zero_default [("Events", "")] eventAliases (by decide)

/-! ### C9: sub-event types play no part in normalisation -/

/-- Every column name the row loop ever reads. -/
def usedColumns : List String :=
  ["Week", "week", "DATE", "date", "Country", "country", "Admin1", "admin1",
   "Admin 1", "Disorder Type", "disorder_type", "Event Type", "event_type",
   "Events", "events", "event_count", "Fatalities", "fatalities",
   "Population Exposure", "population_exposure", "Longitude", "longitude",
   "centroid_longitude", "Latitude", "latitude", "centroid_latitude"]

/-- Appending a binding for a different key does not change a lookup. -/
theorem rowGet_append_ne (row : RawRow) (k v key : String) (h : key ≠ k) :
    rowGet (row ++ [(k, v)]) key = rowGet row key := by
  unfold rowGet
  induction row with
  | nil =>
    simp only [List.nil_append, List.find?]
    have : ¬ ((k, v).1 = key) := fun hkk => h (hkk.symm)
    simp [this]
  | cons kv rest ih =>
    simp only [List.cons_append, List.find?]
    cases hkv : (decide (kv.1 = key)) with
    | true => simp [hkv]
    | false => simpa [hkv] using ih

/-- Alias lookups over a row extended with an unused column coincide with
the lookups over the original row. -/
theorem mapRowGet_append (row : RawRow) (k v : String) (aliases : List String)
    (hsub : ∀ a ∈ aliases, a ∈ usedColumns) (hk : ¬ k ∈ usedColumns) :
    aliases.map (rowGet (row ++ [(k, v)])) = aliases.map (rowGet row) := by
  refine List.map_congr_left ?_
  intro a ha
  refine rowGet_append_ne row k v a ?_
  intro heq
  exact hk (heq ▸ hsub a ha)

/-- C9 amended: normalisation neither reads, validates, nor stores any
sub-event type.  Extending a row with any column outside the read set - in
particular any sub-event column - leaves the result of the row loop
literally unchanged, so no cross-field sub-event/event-type check can occur
at normalisation time; the closed sub-event vocabulary lives only in the Go
API types (GetXSubEventTypes) and is never consulted by the pipeline. -/
theorem processRow_ignores_extra_column (regionId : Nat) (st : LoopSt)
    (row : RawRow) (k v : String) (hk : ¬ k ∈ usedColumns) :
    processRow regionId st (row ++ [(k, v)]) = processRow regionId st row := by
  have hw : weekCell (row ++ [(k, v)]) = weekCell row := by
    unfold weekCell weekAliases
    rw [mapRowGet_append row k v _ (by decide) hk]
  have hstr : ∀ aliases : List String, (∀ a ∈ aliases, a ∈ usedColumns) →
      strField (row ++ [(k, v)]) aliases = strField row aliases := by
    intro aliases hsub
    unfold strField
    rw [mapRowGet_append row k v _ hsub hk]
  have hnum : ∀ aliases : List String, (∀ a ∈ aliases, a ∈ usedColumns) →
      numField (row ++ [(k, v)]) aliases = numField row aliases := by
    intro aliases hsub
    unfold numField
    rw [mapRowGet_append row k v _ hsub hk]
  have hflt : ∀ aliases : List String, (∀ a ∈ aliases, a ∈ usedColumns) →
      floatField (row ++ [(k, v)]) aliases = floatField row aliases := by
    intro aliases hsub
    unfold floatField
    rw [mapRowGet_append row k v _ hsub hk]
  unfold processRow
  rw [hw, hstr _ (by decide), hstr _ (by decide), hstr _ (by decide),
    hstr _ (by decide), hnum _ (by decide), hnum _ (by decide),
    hnum _ (by decide), hflt _ (by decide), hflt _ (by decide)]

/-- The amended C9 statement at a concrete input: adding the mismatched
sub-event column to the sample row changes nothing in the row loop. -/
theorem processRow_ignores_extra_column_witness :
    processRow 1 ⟨⟨[], 1⟩, [], [], []⟩
        (sampleRow ++ [("Sub Event Type", "Peaceful protest")]) =
      processRow 1 ⟨⟨[], 1⟩, [], [], []⟩ sampleRow :=
  processRow_ignores_extra_column 1 ⟨⟨[], 1⟩, [], [], []⟩ sampleRow
    "Sub Event Type" "Peaceful protest" (by decide)

/-- Counterexample to C9: a row that pairs event type "Battles" with the
sub-event "Peaceful protest" - which belongs to Protests, not Battles, in
the Go vocabulary - is normalised and loaded without any error: no
sub-event/event-type cross-check happens, and the loaded store carries no
sub-event data at all (it is identical to loading the row without the
sub-event column). -/
theorem no_subEvent_validation_cex :
    (¬ "Peaceful protest" ∈ battlesSubEventTypes) ∧
    ("Peaceful protest" ∈ protestsSubEventTypes) ∧
    strField (sampleRow ++ [("Sub Event Type", "Peaceful protest")])
      ["Event Type", "event_type"] = "Battles" ∧
    loadBody "Middle East"
        [sampleRow ++ [("Sub Event Type", "Peaceful protest")]]
        emptyDB.store =
      loadBody "Middle East" [sampleRow] emptyDB.store ∧
    (loadBody "Middle East"
        [sampleRow ++ [("Sub Event Type", "Peaceful protest")]]
        emptyDB.store).isOk = true := by
  refine ⟨by decide, by decide, by decide, by decide, by decide⟩

/-! ### Sorting toolkit for the retire-step arithmetic -/

/-- Inserting into a descending list permutes with consing. -/
theorem insDesc_perm (a : Nat) (l : List Nat) :
    List.Perm (insDesc a l) (a :: l) := by
  induction l with
  | nil => exact List.Perm.refl _
  | cons b l ih =>
    unfold insDesc
    by_cases h : a ≤ b
    · simp only [if_pos h]
      exact (List.Perm.cons b ih).trans (List.Perm.swap a b l)
    · simp only [if_neg h]
      exact List.Perm.refl _

/-- `sortDesc` permutes its input. -/
theorem sortDesc_perm (l : List Nat) : List.Perm (sortDesc l) l := by
  induction l with
  | nil => exact List.Perm.refl _
  | cons a l ih =>
    exact (insDesc_perm a (sortDesc l)).trans (List.Perm.cons a ih)

/-- Membership in an insertion. -/
theorem mem_insDesc {x a : Nat} {l : List Nat} :
    x ∈ insDesc a l ↔ x = a ∨ x ∈ l := by
  rw [(insDesc_perm a l).mem_iff]
  simp

/-- `insDesc` preserves descending sortedness. -/
theorem insDesc_sorted (a : Nat) {l : List Nat}
    (h : List.Sorted (fun x y => y ≤ x) l) :
    List.Sorted (fun x y => y ≤ x) (insDesc a l) := by
  induction l with
  | nil => simp [insDesc]
  | cons b l ih =>
    rw [List.sorted_cons] at h
    unfold insDesc
    by_cases hab : a ≤ b
    · simp only [if_pos hab]
      rw [List.sorted_cons]
      refine ⟨?_, ih h.2⟩
      intro x hx
      rcases mem_insDesc.mp hx with rfl | hxl
      · exact hab
      · exact h.1 x hxl
    · simp only [if_neg hab]
      rw [List.sorted_cons]
      refine ⟨?_, by rw [List.sorted_cons]; exact h⟩
      intro x hx
      have hba : b ≤ a := Nat.le_of_lt (Nat.lt_of_not_le hab)
      rcases List.mem_cons.mp hx with rfl | hxl
      · exact hba
      · exact Nat.le_trans (h.1 x hxl) hba

/-- `sortDesc` sorts descending. -/
theorem sortDesc_sorted (l : List Nat) :
    List.Sorted (fun x y => y ≤ x) (sortDesc l) := by
  induction l with
  | nil => simp [sortDesc]
  | cons a l ih => exact insDesc_sorted a ih

/-- A descending-sorted permutation of `l` is `sortDesc l`. -/
theorem eq_sortDesc_of_perm_sorted {l s : List Nat}
    (hp : List.Perm s l) (hs : List.Sorted (fun x y => y ≤ x) s) :
    s = sortDesc l := by
  haveI : IsAntisymm Nat (fun x y => y ≤ x) :=
    ⟨fun a b h1 h2 => Nat.le_antisymm h2 h1⟩
  exact List.eq_of_perm_of_sorted (hp.trans (sortDesc_perm l).symm) hs
    (sortDesc_sorted l)

/-- Sorting commutes with filtering. -/
theorem sortDesc_filter (q : Nat → Bool) (l : List Nat) :
    sortDesc (l.filter q) = (sortDesc l).filter q :=
  (eq_sortDesc_of_perm_sorted (List.Perm.filter q (sortDesc_perm l))
    (List.Pairwise.filter q (sortDesc_sorted l))).symm

/-- The stability core of the retire analysis.  If `m` is the minimum of the
`N` largest values of `W`, then removing the values below `m` and appending
any collection `X` of values drawn from `W` that lie strictly below `m`
leaves that threshold unchanged. -/
theorem minTopN_stable (N : Nat) (W X : List Nat) (m : Nat)
    (hm : minTopN N W = some m)
    (hX : ∀ x ∈ X, x < m ∧ x ∈ W) :
    minTopN N (W.filter (fun w => !decide (w < m)) ++ X) = some m := by
  unfold minTopN at hm ⊢
  rw [List.min?_eq_some_iff'] at hm
  obtain ⟨hmem, hmin⟩ := hm
  have hTsorted := sortDesc_sorted W
  have hPfull : ((sortDesc W).take N).filter (fun w => !decide (w < m)) =
      (sortDesc W).take N := by
    rw [List.filter_eq_self]
    intro b hb
    simpa using hmin b hb
  have hfilter_split : (sortDesc W).filter (fun w => !decide (w < m)) =
      (sortDesc W).take N ++
        ((sortDesc W).drop N).filter (fun w => !decide (w < m)) := by
    conv_lhs => rw [← List.take_append_drop N (sortDesc W)]
    rw [List.filter_append, hPfull]
  have hcase : N ≤ (sortDesc W).length ∨
      ((sortDesc W).length < N ∧ X = [] ∧ (sortDesc W).drop N = []) := by
    by_cases hlen : N ≤ (sortDesc W).length
    · exact Or.inl hlen
    · right
      have hlt := Nat.lt_of_not_le hlen
      refine ⟨hlt, ?_, List.drop_eq_nil_of_le (Nat.le_of_lt hlt)⟩
      cases hXnil : X with
      | nil => rfl
      | cons x xs =>
        exfalso
        have hx := hX x (by rw [hXnil]; exact List.mem_cons_self _ _)
        have hxT : x ∈ sortDesc W := (sortDesc_perm W).mem_iff.mpr hx.2
        have hxP : x ∈ (sortDesc W).take N := by
          rw [List.take_of_length_le (Nat.le_of_lt hlt)]
          exact hxT
        exact Nat.not_lt.mpr (hmin x hxP) hx.1
  have hsorted_concat : List.Sorted (fun x y => y ≤ x)
      ((sortDesc W).filter (fun w => !decide (w < m)) ++ sortDesc X) := by
    rw [List.Sorted, List.pairwise_append]
    refine ⟨List.Pairwise.filter _ hTsorted, sortDesc_sorted X, ?_⟩
    intro a ha b hb
    have hma : m ≤ a := by
      have := List.of_mem_filter ha
      simpa using this
    have hbX : b ∈ X := (sortDesc_perm X).mem_iff.mp hb
    exact Nat.le_trans (Nat.le_of_lt (hX b hbX).1) hma
  have hsort_eq : sortDesc (W.filter (fun w => !decide (w < m)) ++ X) =
      (sortDesc W).filter (fun w => !decide (w < m)) ++ sortDesc X := by
    refine (eq_sortDesc_of_perm_sorted ?_ hsorted_concat).symm
    refine List.Perm.append ?_ (sortDesc_perm X)
    rw [← sortDesc_filter]
    exact sortDesc_perm _
  rw [hsort_eq, hfilter_split, List.append_assoc]
  rcases hcase with hlen | ⟨hlt, hXnil, hQnil⟩
  · have hlenP : ((sortDesc W).take N).length = N := by
      rw [List.length_take]
      exact Nat.min_eq_left hlen
    rw [List.take_append_of_le_length (Nat.le_of_eq hlenP.symm)]
    rw [List.take_take, Nat.min_self]
    exact List.min?_eq_some_iff'.mpr ⟨hmem, hmin⟩
  · subst hXnil
    rw [hQnil]
    simp only [List.filter_nil, sortDesc, List.nil_append, List.foldr_nil,
      List.append_nil]
    rw [List.take_of_length_le]
    · exact List.min?_eq_some_iff'.mpr ⟨hmem, hmin⟩
    · rw [List.length_take]
      exact Nat.le_trans (Nat.min_le_right _ _) (Nat.le_of_lt hlt)

/-- Primary-key comparison is reflexive. -/
theorem pkEq_refl (r : AggRow) : pkEq r r = true := by
  simp [pkEq]

/-- Mapping to weeks commutes with filtering on a week predicate. -/
theorem map_filter_week (p : AggRow → Bool) (q : Nat → Bool)
    (l : List AggRow) :
    (l.filter (fun r => p r && q r.week)).map (fun r => r.week) =
      ((l.filter p).map (fun r => r.week)).filter q := by
  induction l with
  | nil => rfl
  | cons r l ih =>
    rw [List.filter_cons, List.filter_cons]
    cases hp : p r <;> cases hq : q r.week <;>
      simp [hp, hq, ih, List.filter_cons]

/-- The region weeks of the kept rows are the kept region weeks. -/
theorem regionWeeks_filter_keep (rid m : Nat) (l : List AggRow) :
    ((l.filter (fun r => ¬ (r.regionId = rid ∧ r.week < m))).filter
        (fun r => r.regionId = rid)).map (fun r => r.week) =
      ((l.filter (fun r => r.regionId = rid)).map
        (fun r => r.week)).filter (fun w => !decide (w < m)) := by
  rw [List.filter_filter]
  have hcongr : ∀ r ∈ l,
      (fun a => decide (a.regionId = rid) &&
        decide (¬ (a.regionId = rid ∧ a.week < m))) r =
      (fun a => (fun x => decide (x.regionId = rid)) a &&
        (fun w => !decide (w < m)) a.week) r := by
    intro r _
    by_cases h1 : r.regionId = rid <;> by_cases h2 : r.week < m <;>
      simp [h1, h2]
  rw [List.filter_congr hcongr]
  exact map_filter_week (fun x => decide (x.regionId = rid))
    (fun w => !decide (w < m)) l

/-- Evaluation of the retire step when the threshold subquery is empty. -/
theorem retireOld_none (rid N : Nat) (aggs : List AggRow)
    (h : minTopN N (regionWeeks rid aggs) = none) :
    retireOld rid N aggs = aggs := by
  unfold retireOld
  rw [h]

/-- Evaluation of the retire step at a concrete threshold. -/
theorem retireOld_some (rid N : Nat) (aggs : List AggRow) (m : Nat)
    (h : minTopN N (regionWeeks rid aggs) = some m) :
    retireOld rid N aggs =
      aggs.filter (fun r => ¬ (r.regionId = rid ∧ r.week < m)) := by
  unfold retireOld
  rw [h]

/-- Re-running the retire step after re-inserting a batch whose rows were
all retired restores the retired table: the threshold over the region rows
is unchanged and the delete removes exactly the re-inserted rows. -/
theorem retire_after_reinsert (rid N : Nat) (aggs1 M : List AggRow)
    (hreg : ∀ r ∈ M, r.regionId = rid)
    (hsub : ∀ r ∈ M, r ∈ aggs1)
    (hcol : ∀ r ∈ M, ∀ x ∈ retireOld rid N aggs1, pkEq x r = false) :
    retireOld rid N (retireOld rid N aggs1 ++ M) = retireOld rid N aggs1 := by
  cases hm : minTopN N (regionWeeks rid aggs1) with
  | none =>
    have hS1 : retireOld rid N aggs1 = aggs1 := retireOld_none rid N aggs1 hm
    have hMnil : M = [] := by
      cases hMc : M with
      | nil => rfl
      | cons r M2 =>
        exfalso
        have hrM : r ∈ M := by rw [hMc]; exact List.mem_cons_self _ _
        have := hcol r hrM r (by rw [hS1]; exact hsub r hrM)
        rw [pkEq_refl] at this
        cases this
    rw [hMnil, List.append_nil, hS1, hS1]
  | some m =>
    have hS1 : retireOld rid N aggs1 =
        aggs1.filter (fun r => ¬ (r.regionId = rid ∧ r.week < m)) :=
      retireOld_some rid N aggs1 m hm
    have hMlt : ∀ r ∈ M, r.week < m := by
      intro r hr
      by_contra hge
      have hkeep : ¬ (r.regionId = rid ∧ r.week < m) := fun hand => hge hand.2
      have hrS1 : r ∈ retireOld rid N aggs1 := by
        rw [hS1]
        refine List.mem_filter.mpr ⟨hsub r hr, ?_⟩
        rw [decide_eq_true_eq]
        exact hkeep
      have := hcol r hr r hrS1
      rw [pkEq_refl] at this
      cases this
    have hW2 : regionWeeks rid (retireOld rid N aggs1 ++ M) =
        (regionWeeks rid aggs1).filter (fun w => !decide (w < m)) ++
          M.map (fun r => r.week) := by
      unfold regionWeeks
      rw [List.filter_append, List.map_append]
      congr 1
      · rw [hS1]
        exact regionWeeks_filter_keep rid m aggs1
      · congr 1
        exact List.filter_eq_self.mpr (fun r hr => by simp [hreg r hr])
    have hthresh : minTopN N
        (regionWeeks rid (retireOld rid N aggs1 ++ M)) = some m := by
      rw [hW2]
      refine minTopN_stable N _ _ m hm ?_
      intro x hx
      obtain ⟨r, hrM, rfl⟩ := List.mem_map.mp hx
      refine ⟨hMlt r hrM, ?_⟩
      unfold regionWeeks
      exact List.mem_map.mpr ⟨r, List.mem_filter.mpr
        ⟨hsub r hrM, by simp [hreg r hrM]⟩, rfl⟩
    have h1 : (retireOld rid N aggs1).filter
        (fun r => ¬ (r.regionId = rid ∧ r.week < m)) =
          retireOld rid N aggs1 := by
      rw [hS1]
      exact List.filter_eq_self.mpr (fun r hr => (List.mem_filter.mp hr).2)
    have h2 : M.filter (fun r => ¬ (r.regionId = rid ∧ r.week < m)) = [] :=
      List.filter_eq_nil_iff.mpr
        (fun r hr => by simp [hreg r hr, hMlt r hr])
    rw [retireOld_some rid N (retireOld rid N aggs1 ++ M) m hthresh,
      List.filter_append, h1, h2, List.append_nil]

/-! ### Resolver stability: a second identical load only finds, never
creates -/

/-- `rs2` extends `rs`: the area table grew by appends only. -/
def ExtRS (rs rs2 : ResolveSt) : Prop :=
  ∃ tail, rs2.areas = rs.areas ++ tail

/-- Extension is reflexive. -/
theorem extRS_refl (rs : ResolveSt) : ExtRS rs rs :=
  ⟨[], by simp⟩

/-- Extension is transitive. -/
theorem extRS_trans {a b c : ResolveSt} (h1 : ExtRS a b) (h2 : ExtRS b c) :
    ExtRS a c := by
  obtain ⟨t1, ht1⟩ := h1
  obtain ⟨t2, ht2⟩ := h2
  exact ⟨t1 ++ t2, by rw [ht2, ht1, List.append_assoc]⟩

/-- A successful area lookup is stable under appending more areas. -/
theorem findArea_append_of_found {areas : List GeographicArea}
    {name : String} {ty : GAType} {parentId : Option Nat}
    {a : GeographicArea} (h : findArea areas name ty parentId = some a)
    (tail : List GeographicArea) :
    findArea (areas ++ tail) name ty parentId = some a := by
  unfold findArea at h ⊢
  cases ht : jsTruthyNum parentId <;> rw [ht] at h <;>
    simp only at h ⊢ <;> rw [List.find?_append, h] <;> rfl

/-- A failed area lookup over a list stays failed over its front part;
conversely, pushing the search into an appended tail. -/
theorem findArea_append_of_notFound {areas : List GeographicArea}
    {name : String} {ty : GAType} {parentId : Option Nat}
    (h : findArea areas name ty parentId = none)
    (tail : List GeographicArea) :
    findArea (areas ++ tail) name ty parentId =
      findArea tail name ty parentId := by
  unfold findArea at h ⊢
  cases ht : jsTruthyNum parentId <;> rw [ht] at h <;>
    simp only at h ⊢ <;> rw [List.find?_append, h] <;> rfl

/-- The row `getOrCreateArea` inserts matches its own lookup key. -/
theorem findArea_created (rs : ResolveSt) (trimmedName : String)
    (ty : GAType) (parentId : Option Nat) (tail : List GeographicArea) :
    findArea (⟨rs.nextId, trimmedName, ty,
        if jsTruthyNum parentId then parentId else none⟩ :: tail)
      trimmedName ty parentId =
      some ⟨rs.nextId, trimmedName, ty,
        if jsTruthyNum parentId then parentId else none⟩ := by
  unfold findArea
  cases ht : jsTruthyNum parentId <;> simp only [ht] <;> simp [ht]

/-- The resolver only appends new areas. -/
theorem getOrCreateArea_mono {rs : ResolveSt} {name : String} {ty : GAType}
    {parentId : Option Nat} {rs2 : ResolveSt} {i : Nat}
    (h : getOrCreateArea rs name ty parentId = Except.ok (rs2, i)) :
    ExtRS rs rs2 := by
  simp only [getOrCreateArea] at h
  cases hf : findArea rs.areas (trimStr name) ty parentId with
  | some a =>
    rw [hf] at h
    cases h
    exact extRS_refl rs
  | none =>
    rw [hf] at h
    cases hu : rs.areas.any
        (fun a => a.type = ty ∧ a.name = trimStr name) with
    | true => rw [hu] at h; cases h
    | false =>
      rw [hu] at h
      simp only at h
      cases h
      exact ⟨_, rfl⟩

/-- Stability of the resolver: once a call resolved `(name, ty, parentId)`
to `i`, the same call on any later extension of the resulting area table
finds that id without changing anything. -/
theorem getOrCreateArea_stable {rs : ResolveSt} {name : String}
    {ty : GAType} {parentId : Option Nat} {rs2 : ResolveSt} {i : Nat}
    (h : getOrCreateArea rs name ty parentId = Except.ok (rs2, i))
    {rsS : ResolveSt} (hext : ExtRS rs2 rsS) :
    getOrCreateArea rsS name ty parentId = Except.ok (rsS, i) := by
  simp only [getOrCreateArea] at h ⊢
  cases hf : findArea rs.areas (trimStr name) ty parentId with
  | some a =>
    rw [hf] at h
    cases h
    obtain ⟨tail, htail⟩ := hext
    rw [htail, findArea_append_of_found hf tail]
  | none =>
    rw [hf] at h
    cases hu : rs.areas.any
        (fun a => a.type = ty ∧ a.name = trimStr name) with
    | true => rw [hu] at h; cases h
    | false =>
      rw [hu] at h
      simp only at h
      cases h
      obtain ⟨tail, htail⟩ := hext
      simp only at htail
      rw [htail, List.append_assoc,
        findArea_append_of_notFound hf _, List.cons_append,
        findArea_created rs (trimStr name) ty parentId _]

/-- `resolveCountry` only appends new areas. -/
theorem resolveCountry_mono {st : LoopSt} {rid : Nat} {cname : String}
    {st2 : LoopSt} {cid : Option Nat}
    (h : resolveCountry st rid cname = Except.ok (st2, cid)) :
    ExtRS st.rs st2.rs := by
  simp only [resolveCountry] at h
  by_cases hc : cname = ""
  · rw [if_pos hc] at h
    cases h
    exact extRS_refl _
  · rw [if_neg hc] at h
    cases hcache : cacheGet st.countryCache cname with
    | some c =>
      rw [hcache] at h
      simp only at h
      cases h
      exact extRS_refl _
    | none =>
      rw [hcache] at h
      simp only at h
      cases hg : getOrCreateArea st.rs cname GAType.country (some rid) with
      | error e => rw [hg] at h; simp only at h; cases h
      | ok p =>
        obtain ⟨rs3, c⟩ := p
        rw [hg] at h
        simp only at h
        cases h
        exact getOrCreateArea_mono hg

/-- Stability of country resolution: re-running it with the same cache
against any extension of the resolved area table finds the same id and
leaves the table untouched. -/
theorem resolveCountry_stable {st : LoopSt} {rid : Nat} {cname : String}
    {st2 : LoopSt} {cid : Option Nat}
    (h : resolveCountry st rid cname = Except.ok (st2, cid))
    {rsS : ResolveSt} (hext : ExtRS st2.rs rsS) :
    resolveCountry ⟨rsS, st.countryCache, st.admin1Cache, st.data⟩ rid
        cname =
      Except.ok (⟨rsS, st2.countryCache, st2.admin1Cache, st2.data⟩, cid) := by
  simp only [resolveCountry] at h ⊢
  by_cases hc : cname = ""
  · rw [if_pos hc] at h ⊢
    cases h
    rfl
  · rw [if_neg hc] at h ⊢
    cases hcache : cacheGet st.countryCache cname with
    | some c =>
      rw [hcache] at h
      simp only at h ⊢
      cases h
      rfl
    | none =>
      rw [hcache] at h
      simp only at h ⊢
      cases hg : getOrCreateArea st.rs cname GAType.country (some rid) with
      | error e => rw [hg] at h; simp only at h; cases h
      | ok p =>
        obtain ⟨rs3, c⟩ := p
        rw [hg] at h
        simp only at h
        cases h
        rw [getOrCreateArea_stable hg hext]

/-- `resolveAdmin1` only appends new areas. -/
theorem resolveAdmin1_mono {st : LoopSt} {countryId : Option Nat}
    {aname : String} {st2 : LoopSt} {aid : Option Nat}
    (h : resolveAdmin1 st countryId aname = Except.ok (st2, aid)) :
    ExtRS st.rs st2.rs := by
  simp only [resolveAdmin1] at h
  cases countryId with
  | none =>
    simp only at h
    cases h
    exact extRS_refl _
  | some c =>
    simp only at h
    by_cases hc : aname = "" ∨ c = 0
    · rw [if_pos hc] at h
      cases h
      exact extRS_refl _
    · rw [if_neg hc] at h
      cases hcache : cacheGet st.admin1Cache (natToStr c ++ ":" ++ aname) with
      | some a =>
        rw [hcache] at h
        simp only at h
        cases h
        exact extRS_refl _
      | none =>
        rw [hcache] at h
        simp only at h
        cases hg : getOrCreateArea st.rs aname GAType.admin1 (some c) with
        | error e => rw [hg] at h; simp only at h; cases h
        | ok p =>
          obtain ⟨rs3, a⟩ := p
          rw [hg] at h
          simp only at h
          cases h
          exact getOrCreateArea_mono hg

/-- Stability of admin1 resolution. -/
theorem resolveAdmin1_stable {st : LoopSt} {countryId : Option Nat}
    {aname : String} {st2 : LoopSt} {aid : Option Nat}
    (h : resolveAdmin1 st countryId aname = Except.ok (st2, aid))
    {rsS : ResolveSt} (hext : ExtRS st2.rs rsS) :
    resolveAdmin1 ⟨rsS, st.countryCache, st.admin1Cache, st.data⟩ countryId
        aname =
      Except.ok (⟨rsS, st2.countryCache, st2.admin1Cache, st2.data⟩, aid) := by
  simp only [resolveAdmin1] at h ⊢
  cases countryId with
  | none =>
    simp only at h ⊢
    cases h
    rfl
  | some c =>
    simp only at h ⊢
    by_cases hc : aname = "" ∨ c = 0
    · rw [if_pos hc] at h ⊢
      cases h
      rfl
    · rw [if_neg hc] at h ⊢
      cases hcache : cacheGet st.admin1Cache (natToStr c ++ ":" ++ aname) with
      | some a =>
        rw [hcache] at h
        simp only at h ⊢
        cases h
        rfl
      | none =>
        rw [hcache] at h
        simp only at h ⊢
        cases hg : getOrCreateArea st.rs aname GAType.admin1 (some c) with
        | error e => rw [hg] at h; simp only at h; cases h
        | ok p =>
          obtain ⟨rs3, a⟩ := p
          rw [hg] at h
          simp only at h
          cases h
          rw [getOrCreateArea_stable hg hext]

/-- One loop iteration only appends new areas. -/
theorem processRow_mono {rid : Nat} {st : LoopSt} {row : RawRow}
    {st2 : LoopSt} (h : processRow rid st row = Except.ok st2) :
    ExtRS st.rs st2.rs := by
  simp only [processRow] at h
  cases hw : weekCell row with
  | none =>
    rw [hw] at h
    simp only at h
    cases h
    exact extRS_refl _
  | some ws =>
    rw [hw] at h
    simp only at h
    cases hp : parseDate ws with
    | error e => rw [hp] at h; simp only at h; cases h
    | ok week =>
      rw [hp] at h
      simp only at h
      cases hc : resolveCountry st rid (strField row ["Country", "country"]) with
      | error e => rw [hc] at h; simp only at h; cases h
      | ok p =>
        obtain ⟨st1, cid⟩ := p
        rw [hc] at h
        simp only at h
        cases ha : resolveAdmin1 st1 cid
            (strField row ["Admin1", "admin1", "Admin 1"]) with
        | error e => rw [ha] at h; simp only at h; cases h
        | ok q =>
          obtain ⟨stA, aid⟩ := q
          rw [ha] at h
          simp only at h
          cases h
          have h2 := resolveAdmin1_mono ha
          exact extRS_trans (resolveCountry_mono hc) h2

/-- One loop iteration, re-run with the same caches against any extension of
the area table it produced, finds all areas and produces the same record. -/
theorem processRow_stable {rid : Nat} {st : LoopSt} {row : RawRow}
    {st2 : LoopSt} (h : processRow rid st row = Except.ok st2)
    {rsS : ResolveSt} (hext : ExtRS st2.rs rsS) :
    processRow rid ⟨rsS, st.countryCache, st.admin1Cache, st.data⟩ row =
      Except.ok ⟨rsS, st2.countryCache, st2.admin1Cache, st2.data⟩ := by
  simp only [processRow] at h ⊢
  cases hw : weekCell row with
  | none =>
    rw [hw] at h
    simp only at h ⊢
    cases h
    rfl
  | some ws =>
    rw [hw] at h
    simp only at h ⊢
    cases hp : parseDate ws with
    | error e => rw [hp] at h; simp only at h; cases h
    | ok week =>
      rw [hp] at h
      simp only at h ⊢
      cases hc : resolveCountry st rid (strField row ["Country", "country"]) with
      | error e => rw [hc] at h; simp only at h; cases h
      | ok p =>
        obtain ⟨st1, cid⟩ := p
        rw [hc] at h
        simp only at h
        cases ha : resolveAdmin1 st1 cid
            (strField row ["Admin1", "admin1", "Admin 1"]) with
        | error e => rw [ha] at h; simp only at h; cases h
        | ok q =>
          obtain ⟨stA, aid⟩ := q
          rw [ha] at h
          simp only at h
          cases h
          have hext1 : ExtRS st1.rs rsS :=
            extRS_trans (resolveAdmin1_mono ha) hext
          rw [resolveCountry_stable hc hext1]
          simp only
          rw [resolveAdmin1_stable ha hext]

/-- The row loop only appends new areas. -/
theorem collectRows_mono {rid : Nat} :
    ∀ {rows : List RawRow} {st L : LoopSt},
      collectRows rid st rows = Except.ok L → ExtRS st.rs L.rs := by
  intro rows
  induction rows with
  | nil =>
    intro st L h
    cases h
    exact extRS_refl _
  | cons row rest ih =>
    intro st L h
    simp only [collectRows] at h
    cases hr : processRow rid st row with
    | error e => rw [hr] at h; simp only at h; cases h
    | ok st1 =>
      rw [hr] at h
      simp only at h
      exact extRS_trans (processRow_mono hr) (ih h)

/-- Re-running the whole row loop with fresh caches against the final area
table is a no-op: it finds every area and reproduces the same caches and the
same collected records. -/
theorem collectRows_stable {rid : Nat} :
    ∀ {rows : List RawRow} {st L : LoopSt},
      collectRows rid st rows = Except.ok L →
      collectRows rid ⟨L.rs, st.countryCache, st.admin1Cache, st.data⟩ rows =
        Except.ok ⟨L.rs, L.countryCache, L.admin1Cache, L.data⟩ := by
  intro rows
  induction rows with
  | nil =>
    intro st L h
    cases h
    rfl
  | cons row rest ih =>
    intro st L h
    simp only [collectRows] at h ⊢
    cases hr : processRow rid st row with
    | error e => rw [hr] at h; simp only at h; cases h
    | ok st1 =>
      rw [hr] at h
      simp only at h
      have hext : ExtRS st1.rs L.rs := collectRows_mono h
      rw [processRow_stable hr hext]
      simp only
      exact ih h

/-- Every record the loop collects carries the resolved region id. -/
theorem collectRows_data_region {rid : Nat} :
    ∀ {rows : List RawRow} {st L : LoopSt},
      collectRows rid st rows = Except.ok L →
      (∀ r ∈ st.data, r.regionId = rid) →
      ∀ r ∈ L.data, r.regionId = rid := by
  intro rows
  induction rows with
  | nil =>
    intro st L h hst
    cases h
    exact hst
  | cons row rest ih =>
    intro st L h hst
    simp only [collectRows] at h
    cases hr : processRow rid st row with
    | error e => rw [hr] at h; simp only at h; cases h
    | ok st1 =>
      rw [hr] at h
      simp only at h
      refine ih h ?_
      simp only [processRow] at hr
      cases hw : weekCell row with
      | none =>
        rw [hw] at hr
        simp only at hr
        cases hr
        exact hst
      | some ws =>
        rw [hw] at hr
        simp only at hr
        cases hp : parseDate ws with
        | error e => rw [hp] at hr; simp only at hr; cases hr
        | ok week =>
          rw [hp] at hr
          simp only at hr
          cases hc : resolveCountry st rid
              (strField row ["Country", "country"]) with
          | error e => rw [hc] at hr; simp only at hr; cases hr
          | ok p =>
            obtain ⟨stC, cid⟩ := p
            rw [hc] at hr
            simp only at hr
            cases ha : resolveAdmin1 stC cid
                (strField row ["Admin1", "admin1", "Admin 1"]) with
            | error e => rw [ha] at hr; simp only at hr; cases hr
            | ok q =>
              obtain ⟨stA, aid⟩ := q
              rw [ha] at hr
              simp only at hr
              cases hr
              intro r hraw
              have hdataC : stC.data = st.data := by
                simp only [resolveCountry] at hc
                by_cases hcn : strField row ["Country", "country"] = ""
                · rw [if_pos hcn] at hc
                  cases hc
                  rfl
                · rw [if_neg hcn] at hc
                  cases hcc : cacheGet st.countryCache
                      (strField row ["Country", "country"]) with
                  | some c => rw [hcc] at hc; simp only at hc; cases hc; rfl
                  | none =>
                    rw [hcc] at hc
                    simp only at hc
                    cases hg : getOrCreateArea st.rs
                        (strField row ["Country", "country"])
                        GAType.country (some rid) with
                    | error e => rw [hg] at hc; simp only at hc; cases hc
                    | ok pp =>
                      obtain ⟨rs3, c⟩ := pp
                      rw [hg] at hc
                      simp only at hc
                      cases hc
                      rfl
              have hdataA : stA.data = stC.data := by
                simp only [resolveAdmin1] at ha
                cases cid with
                | none => simp only at ha; cases ha; rfl
                | some c =>
                  simp only at ha
                  by_cases hcn : strField row ["Admin1", "admin1", "Admin 1"]
                      = "" ∨ c = 0
                  · rw [if_pos hcn] at ha
                    cases ha
                    rfl
                  · rw [if_neg hcn] at ha
                    cases hcc : cacheGet stC.admin1Cache (natToStr c ++ ":" ++
                        strField row ["Admin1", "admin1", "Admin 1"]) with
                    | some a => rw [hcc] at ha; simp only at ha; cases ha; rfl
                    | none =>
                      rw [hcc] at ha
                      simp only at ha
                      cases hg : getOrCreateArea stC.rs
                          (strField row ["Admin1", "admin1", "Admin 1"])
                          GAType.admin1 (some c) with
                      | error e => rw [hg] at ha; simp only at ha; cases ha
                      | ok pp =>
                        obtain ⟨rs3, a⟩ := pp
                        rw [hg] at ha
                        simp only at ha
                        cases ha
                        rfl
              simp only [List.mem_append, hdataA, hdataC] at hraw
              rcases hraw with hold | hnew
              · exact hst r hold
              · simp only [List.mem_singleton] at hnew
                rw [hnew]

/-! ### Insert-phase lemmas -/

/-- A successful sequential insert appends exactly its rows. -/
theorem insertAll_ok_append :
    ∀ {rs : List AggRow} {aggs out : List AggRow},
      insertAll aggs rs = Except.ok out → out = aggs ++ rs := by
  intro rs
  induction rs with
  | nil =>
    intro aggs out h
    cases h
    simp
  | cons r rest ih =>
    intro aggs out h
    simp only [insertAll] at h
    cases hi : insertAgg aggs r with
    | error e => rw [hi] at h; simp only at h; cases h
    | ok aggs1 =>
      rw [hi] at h
      simp only at h
      simp only [insertAgg] at hi
      split at hi
      · cases hi
      · split at hi
        · cases hi
        · split at hi
          · cases hi
          · cases hi
            rw [ih h]
            simp

/-- A successful sequential insert found no primary-key collision with the
pre-existing rows. -/
theorem insertAll_ok_nocollision :
    ∀ {rs : List AggRow} {aggs out : List AggRow},
      insertAll aggs rs = Except.ok out →
      ∀ r ∈ rs, ∀ x ∈ aggs, pkEq x r = false := by
  intro rs
  induction rs with
  | nil =>
    intro aggs out _ r hr
    cases hr
  | cons r0 rest ih =>
    intro aggs out h r hr x hx
    simp only [insertAll] at h
    cases hi : insertAgg aggs r0 with
    | error e => rw [hi] at h; simp only at h; cases h
    | ok aggs1 =>
      rw [hi] at h
      simp only at h
      simp only [insertAgg] at hi
      rcases List.mem_cons.mp hr with rfl | hrest
      · split at hi
        · cases hi
        · split at hi
          · cases hi
          · split at hi
            · cases hi
            · rename_i hany
              exact Bool.eq_false_iff.mpr
                (fun htrue => hany (List.any_eq_true.mpr ⟨x, hx, htrue⟩))
      · have haggs1 : aggs1 = aggs ++ [r0] := by
          split at hi
          · cases hi
          · split at hi
            · cases hi
            · split at hi
              · cases hi
              · cases hi; rfl
        exact ih h r hrest x (by rw [haggs1]; exact List.mem_append_left _ hx)

/-- Sequential insertion splits over append. -/
theorem insertAll_append (aggs : List AggRow) :
    ∀ (xs ys : List AggRow),
      insertAll aggs (xs ++ ys) =
        match insertAll aggs xs with
        | Except.error e => Except.error e
        | Except.ok a2 => insertAll a2 ys := by
  intro xs
  induction xs generalizing aggs with
  | nil => intro ys; simp [insertAll]
  | cons x xs ih =>
    intro ys
    simp only [List.cons_append, insertAll]
    cases hi : insertAgg aggs x with
    | error e => rfl
    | ok aggs1 => exact ih aggs1 ys

/-- Folding the inserts over the chunks is the sequential insert, for any
fuel: every chunking step preserves the concatenation. -/
theorem foldlM_chunksOfAux :
    ∀ (fuel : Nat) (rs aggs : List AggRow),
      List.foldlM insertAll aggs (chunksOfAux fuel rs) = insertAll aggs rs := by
  intro fuel
  induction fuel with
  | zero =>
    intro rs aggs
    cases rs with
    | nil =>
      simp only [chunksOfAux, List.foldlM, insertAll]
      rfl
    | cons r rest =>
      simp only [chunksOfAux, List.foldlM]
      cases h : insertAll aggs (r :: rest) with
      | error e => rfl
      | ok out => rfl
  | succ fuel ih =>
    intro rs aggs
    cases rs with
    | nil =>
      simp only [chunksOfAux, List.foldlM, insertAll]
      rfl
    | cons r rest =>
      simp only [chunksOfAux, List.foldlM]
      have hsplit := insertAll_append aggs ((r :: rest).take 5000)
        ((r :: rest).drop 5000)
      rw [List.take_append_drop 5000 (r :: rest)] at hsplit
      rw [hsplit]
      cases hh : insertAll aggs ((r :: rest).take 5000) with
      | error e => rfl
      | ok a2 =>
        simp only [Except.bind]
        exact ih ((r :: rest).drop 5000) a2

/-- The chunked batch insert equals the sequential insert: chunk boundaries
do not change the per-row checks. -/
theorem insertPhase_eq_insertAll (aggs rs : List AggRow) :
    insertPhase aggs rs = insertAll aggs rs := by
  unfold insertPhase chunksOf5000
  exact foldlM_chunksOfAux rs.length rs aggs

/-! ### The transaction body is idempotent on success -/

/-- If the body succeeded, running it again from the committed store can
only reproduce that store: the resolver finds every area, collection yields
the same records, the insert either collides (and the run fails) or inserts
rows that the retire step removes again. -/
theorem loadBody_idem {region : String} {rows : List RawRow}
    {S0 S1 S2 : Store} (h1 : loadBody region rows S0 = Except.ok S1)
    (h2 : loadBody region rows S1 = Except.ok S2) : S2 = S1 := by
  obtain ⟨rs0, rid, L, aggs1, hg, hcol, hins, hS1eq⟩ := loadBody_ok_decomp h1
  subst hS1eq
  obtain ⟨rs0b, ridb, Lb, aggs2, hgb, hcolb, hinsb, hS2eq⟩ :=
    loadBody_ok_decomp h2
  -- the second region resolution finds the same id and changes nothing
  have hext0 : ExtRS rs0 L.rs := collectRows_mono hcol
  have hgb2 : getOrCreateArea L.rs region GAType.region none =
      Except.ok (L.rs, rid) := getOrCreateArea_stable hg hext0
  have hEta : (⟨(⟨L.rs.areas, L.rs.nextId,
      retireOld rid rows.length aggs1⟩ : Store).areas,
      (⟨L.rs.areas, L.rs.nextId,
        retireOld rid rows.length aggs1⟩ : Store).nextAreaId⟩ : ResolveSt) =
      L.rs := rfl
  rw [hEta, hgb2] at hgb
  cases hgb
  -- the second collection reproduces the same records with no new areas
  have hcs := collectRows_stable hcol
  simp only at hcs
  rw [hcs] at hcolb
  cases hcolb
  -- characterise both inserts
  rw [insertPhase_eq_insertAll] at hins hinsb
  have haggs1 : aggs1 = S0.aggs ++ L.data := insertAll_ok_append hins
  have haggs2 : aggs2 = retireOld rid rows.length aggs1 ++ L.data := by
    have := insertAll_ok_append hinsb
    simpa using this
  have hnocol : ∀ r ∈ L.data, ∀ x ∈ retireOld rid rows.length aggs1,
      pkEq x r = false := by
    intro r hr x hx
    exact insertAll_ok_nocollision hinsb r hr x (by simpa using hx)
  -- the second retire removes exactly the re-inserted rows
  have hreg : ∀ r ∈ L.data, r.regionId = rid :=
    collectRows_data_region hcol (fun r hr => absurd hr (List.not_mem_nil r))
  have hsub : ∀ r ∈ L.data, r ∈ aggs1 := by
    intro r hr
    rw [haggs1]
    exact List.mem_append_right _ hr
  have hfinal := retire_after_reinsert rid rows.length aggs1 L.data hreg
    hsub hnocol
  rw [hS2eq, haggs2, hfinal]

/-- C7: idempotence of the per-source load.  Invoking the per-region
processing a second time with an identical batch (same region, same rows,
same filename) leaves the store - geographic areas, their id counter, and
the AggregateRecord table - exactly as it was after the first call,
whatever the outcomes of the two ledger writes: on a successful first load
the second run either fails on the primary key and rolls back, or
re-inserts rows the retire step deletes again; on a failed first load the
second run fails identically. -/
theorem loadBatch_idempotent (db : DB) (region : String)
    (rows : List RawRow) (filename : String) (b1 b2 : Bool) (d1 d2 : Nat) :
    (runOnce (runOnce db region rows filename b1 d1) region rows filename
        b2 d2).store =
      (runOnce db region rows filename b1 d1).store := by
  have hstore : ∀ (db2 : DB) (b : Bool) (d : Nat),
      (runOnce db2 region rows filename b d).store =
        match loadBody region rows db2.store with
        | Except.ok st => st
        | Except.error _ => db2.store := by
    intro db2 b d
    unfold runOnce processRegionFile
    cases h : loadBody region rows db2.store <;> cases b <;> simp
  rw [hstore, hstore]
  cases h1 : loadBody region rows db.store with
  | error e => rw [h1]
  | ok S1 =>
    cases h2 : loadBody region rows S1 with
    | error e => simp only
    | ok S2 =>
      simp only
      exact loadBody_idem h1 h2

end Crushingviz
